import Mathlib

/-!
Verification development for the SubMind aggregator (src/app.py).

The Python source is shallowly embedded: Python floats are modelled as real
numbers, Python lists as Lean lists, the two dedup sets as lists of strings
used only through membership, and the process-wide mutable dictionary
"state" as an explicit record threaded through each operation.  Network
calls are modelled by an explicit per-source outcome value: the body of the
try-block of fetch_json (HTTP GET, raise_for_status, JSON parse) either
produces a parsed payload or raises with a message, so its outcome is an
Except value supplied as input.  A payload that parses but is not a dict of
the expected shape is modelled as a present-but-shapeless payload (the
inner Option), since the worker skips it via isinstance without logging.
-/

namespace SubMind

/-- Python list slicing l[-n:]: the suffix of the last n (or all) elements. -/
def lastN (n : Nat) (l : List α) : List α := l.drop (l.length - n)

/-- Python round(x, 3): round to 3 decimal places.  Python rounds ties to
even; this model rounds ties up, which differs only on exact half-thousandth
ties and affects none of the statements below. -/
noncomputable def round3 (x : ℝ) : ℝ := ((round (x * 1000) : ℤ) : ℝ) / 1000

/-- calc_stats (src/app.py lines 60-69): reduce a series to
(score, velocity, trust), each rounded to 3 decimals; empty input gives
(0, 0, 0). -/
noncomputable def calc_stats (series : List ℝ) : ℝ × ℝ × ℝ :=
  match series with
  | [] => (0, 0, 0)
  | x :: xs =>
    let score := (x :: xs).sum / ((x :: xs).length : ℝ)
    let velocity := (xs.getLastD x - x) / ((max ((x :: xs).length - 1) 1 : ℕ) : ℝ)
    let mean := score
    let var := ((x :: xs).map (fun y => (y - mean) ^ 2)).sum / ((x :: xs).length : ℝ)
    let stdev := Real.sqrt var
    let trust := 1 / (1 + stdev)
    (round3 score, round3 velocity, round3 trust)

/-- The arithmetic mean of the series (the score before rounding). -/
noncomputable def meanOf (s : List ℝ) : ℝ := s.sum / (s.length : ℝ)

/-- The velocity before rounding: (last - first) / max(length - 1, 1). -/
noncomputable def velOf (s : List ℝ) : ℝ :=
  (s.getLastD 0 - s.headD 0) / ((max (s.length - 1) 1 : ℕ) : ℝ)

/-- The population variance of the series. -/
noncomputable def varOf (s : List ℝ) : ℝ :=
  (s.map (fun y => (y - meanOf s) ^ 2)).sum / (s.length : ℝ)

/-- The population standard deviation of the series. -/
noncomputable def stdevOf (s : List ℝ) : ℝ := Real.sqrt (varOf s)

/-- The trust component before rounding: 1 / (1 + population stdev). -/
noncomputable def trustRaw (s : List ℝ) : ℝ := 1 / (1 + stdevOf s)

/-- Division that refuses a zero divisor, used to certify that calc_stats
never divides by zero. -/
noncomputable def safeDiv (a b : ℝ) : Option ℝ :=
  if b = 0 then none else some (a / b)

/-- calc_stats with every division guarded by safeDiv: returns none if any
divisor is zero. -/
noncomputable def calc_statsChecked (series : List ℝ) : Option (ℝ × ℝ × ℝ) :=
  match series with
  | [] => some (0, 0, 0)
  | x :: xs =>
    (safeDiv (x :: xs).sum ((x :: xs).length : ℝ)).bind fun score =>
    (safeDiv (xs.getLastD x - x) ((max ((x :: xs).length - 1) 1 : ℕ) : ℝ)).bind fun _velocity =>
    (safeDiv (((x :: xs).map (fun y => (y - score) ^ 2)).sum) ((x :: xs).length : ℝ)).bind fun var =>
    (safeDiv 1 (1 + Real.sqrt var)).bind fun _trust =>
    some (calc_stats (x :: xs))

theorem calc_stats_cons (x : ℝ) (xs : List ℝ) :
    calc_stats (x :: xs) =
      (round3 (meanOf (x :: xs)), round3 (velOf (x :: xs)), round3 (trustRaw (x :: xs))) := by
  simp only [calc_stats, meanOf, velOf, varOf, stdevOf, trustRaw,
    List.getLastD_cons, List.headD_cons]

theorem length_cast_pos (x : ℝ) (xs : List ℝ) : (0 : ℝ) < (((x :: xs).length : ℕ) : ℝ) := by
  exact_mod_cast Nat.succ_pos xs.length

theorem length_cast_ne_zero (x : ℝ) (xs : List ℝ) : (((x :: xs).length : ℕ) : ℝ) ≠ 0 :=
  ne_of_gt (length_cast_pos x xs)

theorem one_add_sqrt_pos (v : ℝ) : 0 < 1 + Real.sqrt v := by
  have h := Real.sqrt_nonneg v
  linarith

theorem trustRaw_pos (s : List ℝ) : 0 < trustRaw s := by
  rw [trustRaw, stdevOf]
  exact div_pos one_pos (one_add_sqrt_pos _)

theorem trustRaw_le_one (s : List ℝ) : trustRaw s ≤ 1 := by
  have h := one_add_sqrt_pos (varOf s)
  rw [trustRaw, stdevOf, div_le_one h]
  have := Real.sqrt_nonneg (varOf s)
  linarith

theorem varOf_nonneg (s : List ℝ) : 0 ≤ varOf s := by
  apply div_nonneg
  · apply List.sum_nonneg
    intro y hy
    obtain ⟨z, _, rfl⟩ := List.mem_map.mp hy
    positivity
  · positivity

theorem sum_sq_eq_zero_iff (m : ℝ) (l : List ℝ) :
    (l.map (fun y => (y - m) ^ 2)).sum = 0 ↔ ∀ y ∈ l, y = m := by
  induction l with
  | nil => simp
  | cons a l ih =>
    simp only [List.map_cons, List.sum_cons, List.mem_cons]
    have ha : (0:ℝ) ≤ (a - m) ^ 2 := by positivity
    have hl : (0:ℝ) ≤ (l.map (fun y => (y - m) ^ 2)).sum := by
      apply List.sum_nonneg
      intro y hy
      obtain ⟨z, _, rfl⟩ := List.mem_map.mp hy
      positivity
    constructor
    · intro h
      have h1 : (a - m) ^ 2 = 0 ∧ (l.map (fun y => (y - m) ^ 2)).sum = 0 := by
        constructor <;> nlinarith
      have ha' : a = m := by
        have := pow_eq_zero_iff (n := 2) (by norm_num) |>.mp h1.1
        linarith [sub_eq_zero.mp this]
      exact fun y hy => hy.elim (fun h => h ▸ ha') (fun h => ih.mp h1.2 y h)
    · intro h
      have ha' : a = m := h a (Or.inl rfl)
      have hl' : (l.map (fun y => (y - m) ^ 2)).sum = 0 :=
        ih.mpr fun y hy => h y (Or.inr hy)
      rw [ha', hl', sub_self]
      ring

theorem meanOf_of_all_eq (x : ℝ) (xs : List ℝ) (h : ∀ y ∈ x :: xs, y = x) :
    meanOf (x :: xs) = x := by
  have hlen : ((x :: xs).length : ℝ) ≠ 0 := length_cast_ne_zero x xs
  have hsum : (x :: xs).sum = ((x :: xs).length : ℝ) * x := by
    have : (x :: xs) = List.replicate (x :: xs).length x :=
      List.eq_replicate_of_mem h
    rw [this]
    simp [List.sum_replicate, nsmul_eq_mul]
  rw [meanOf, hsum]
  field_simp

theorem varOf_eq_zero_iff (x : ℝ) (xs : List ℝ) :
    varOf (x :: xs) = 0 ↔ ∀ a ∈ x :: xs, ∀ b ∈ x :: xs, a = b := by
  have hlen : ((x :: xs).length : ℝ) ≠ 0 := length_cast_ne_zero x xs
  rw [varOf, div_eq_zero_iff]
  simp only [hlen, or_false]
  rw [sum_sq_eq_zero_iff]
  constructor
  · intro h a ha b hb
    rw [h a ha, h b hb]
  · intro h
    have hx : ∀ y ∈ x :: xs, y = x := fun y hy => h y hy x (List.mem_cons_self x xs)
    have hm : meanOf (x :: xs) = x := meanOf_of_all_eq x xs hx
    intro y hy
    rw [hm]
    exact hx y hy

theorem trustRaw_eq_one_iff (x : ℝ) (xs : List ℝ) :
    trustRaw (x :: xs) = 1 ↔ ∀ a ∈ x :: xs, ∀ b ∈ x :: xs, a = b := by
  have hpos := one_add_sqrt_pos (varOf (x :: xs))
  rw [trustRaw, stdevOf, div_eq_one_iff_eq (ne_of_gt hpos)]
  have hv := varOf_nonneg (x :: xs)
  constructor
  · intro h
    have hs : Real.sqrt (varOf (x :: xs)) = 0 := by linarith
    have : varOf (x :: xs) ≤ 0 := Real.sqrt_eq_zero'.mp hs
    exact (varOf_eq_zero_iff x xs).mp (le_antisymm this hv)
  · intro h
    have : varOf (x :: xs) = 0 := (varOf_eq_zero_iff x xs).mpr h
    rw [this, Real.sqrt_zero, add_zero]

theorem round3_zero : round3 0 = 0 := by
  simp [round3]

theorem round3_int (k : ℤ) : round3 ((k : ℝ) / 1000) = (k : ℝ) / 1000 := by
  have h : ((k : ℝ) / 1000) * 1000 = (k : ℝ) := by field_simp
  rw [round3, h, round_intCast]

theorem round3_one : round3 1 = 1 := by
  have h := round3_int 1000
  norm_num at h
  exact h

theorem round_one_tenth : round ((1 : ℝ) / 10) = 0 := by
  rw [round_eq]
  have : (1 : ℝ) / 10 + 1 / 2 = 6 / 10 := by norm_num
  rw [this]
  rw [Int.floor_eq_zero_iff]
  constructor <;> norm_num

/-- C10: calc_stats is total and never divides by zero: the empty branch
returns (0,0,0) immediately, and on a non-empty series every divisor
(the length for mean and variance, max(length-1,1) for velocity, and
1 + stdev for trust) is nonzero, so the safeDiv-guarded version always
returns the same value calc_stats does. -/
theorem c10_calc_stats_no_div_by_zero (series : List ℝ) :
    calc_statsChecked series = some (calc_stats series) := by
  cases series with
  | nil => simp [calc_statsChecked, calc_stats]
  | cons x xs =>
    have h1 : ((xs.length : ℝ) + 1) ≠ 0 := by positivity
    have h2 : (max (xs.length : ℝ) 1) ≠ 0 :=
      ne_of_gt (lt_of_lt_of_le one_pos (le_max_right _ _))
    have hs : ∀ v : ℝ, (1 + Real.sqrt v) ≠ 0 := fun v => ne_of_gt (one_add_sqrt_pos v)
    simp [calc_statsChecked, safeDiv, h1, h2, hs]

/-- C3: for a non-empty series, calc_stats returns the mean, velocity and
trust each rounded to 3 decimals before exposure, where the trust before
rounding equals 1 / (1 + population standard deviation), lies in (0, 1],
and equals 1 exactly when all elements of the series are equal. -/
theorem c3_trust_spec (s : List ℝ) (h : s ≠ []) :
    calc_stats s = (round3 (meanOf s), round3 (velOf s), round3 (trustRaw s)) ∧
    trustRaw s = 1 / (1 + stdevOf s) ∧
    0 < trustRaw s ∧ trustRaw s ≤ 1 ∧
    (trustRaw s = 1 ↔ ∀ a ∈ s, ∀ b ∈ s, a = b) := by
  obtain ⟨x, xs, rfl⟩ := List.exists_cons_of_ne_nil h
  exact ⟨calc_stats_cons x xs, rfl, trustRaw_pos _, trustRaw_le_one _,
    trustRaw_eq_one_iff x xs⟩

theorem c3_trust_spec_witness :
    ([(1 : ℝ), 2] ≠ []) ∧
    (calc_stats [(1 : ℝ), 2] =
        (round3 (meanOf [(1 : ℝ), 2]), round3 (velOf [(1 : ℝ), 2]),
          round3 (trustRaw [(1 : ℝ), 2])) ∧
      trustRaw [(1 : ℝ), 2] = 1 / (1 + stdevOf [(1 : ℝ), 2]) ∧
      0 < trustRaw [(1 : ℝ), 2] ∧ trustRaw [(1 : ℝ), 2] ≤ 1 ∧
      (trustRaw [(1 : ℝ), 2] = 1 ↔ ∀ a ∈ [(1 : ℝ), 2], ∀ b ∈ [(1 : ℝ), 2], a = b)) :=
  ⟨by simp, c3_trust_spec [(1 : ℝ), 2] (by simp)⟩

/-- C9 counterexample: calc([x]) does not equal (x, 0, 1) for every x,
because the score is rounded to 3 decimals: at x = 1/10000 the returned
score is 0, not x. -/
theorem c9_single_cex : calc_stats [(1 : ℝ) / 10000] ≠ ((1 : ℝ) / 10000, 0, 1) := by
  have hmean : meanOf [(1 : ℝ) / 10000] = (1 : ℝ) / 10000 := by simp [meanOf]
  have h := calc_stats_cons ((1 : ℝ) / 10000) []
  have hscore : round3 ((1 : ℝ) / 10000) = 0 := by
    have h1 : ((1 : ℝ) / 10000) * 1000 = 1 / 10 := by norm_num
    rw [round3, h1, round_one_tenth]
    norm_num
  intro heq
  rw [h, hmean, hscore] at heq
  have h2 : (0 : ℝ) = (1 : ℝ) / 10000 := congrArg Prod.fst heq
  norm_num at h2

/-- C9 amended: calc([x]) = (round3 x, 0, 1) for any single float x: the
velocity is clamped to 0 by the max(length-1, 1) divisor and the trust is 1
because the variance is zero, but the score is x rounded to 3 decimal
places; it equals x itself exactly when x is an integer multiple of 1/1000. -/
theorem c9_single_amended (x : ℝ) :
    calc_stats [x] = (round3 x, 0, 1) ∧
    (∀ k : ℤ, x = (k : ℝ) / 1000 → calc_stats [x] = (x, 0, 1)) := by
  have h := calc_stats_cons x []
  have hmean : meanOf [x] = x := by simp [meanOf]
  have hvel : velOf [x] = 0 := by simp [velOf]
  have hvar : varOf [x] = 0 := by simp [varOf, hmean]
  have htrust : trustRaw [x] = 1 := by simp [trustRaw, stdevOf, hvar]
  have hbase : calc_stats [x] = (round3 x, 0, 1) := by
    rw [h, hmean, hvel, htrust, round3_zero, round3_one]
  refine ⟨hbase, fun k hk => ?_⟩
  rw [hbase, hk, round3_int]

theorem c9_single_amended_witness :
    calc_stats [(1 : ℝ) / 2] = (round3 ((1 : ℝ) / 2), 0, 1) ∧
    calc_stats [(1 : ℝ) / 2] = ((1 : ℝ) / 2, 0, 1) :=
  ⟨(c9_single_amended ((1 : ℝ) / 2)).1,
   (c9_single_amended ((1 : ℝ) / 2)).2 500 (by norm_num)⟩

/-! ## State model: the process-wide state dictionary and the worker -/

/-- Incident record: {kind, message, t} (src/app.py lines 71-77). -/
structure Incident where
  kind : String
  message : String
  t : ℝ

/-- A scores row as built by the worker (src/app.py lines 156-163). -/
structure ScoreRow where
  name : String
  score : ℝ
  velocity : ℝ
  trust : ℝ
  ts : ℝ

/-- A narratives row: {title, source, t}. -/
structure Narrative where
  title : String
  source : String
  t : ℝ

/-- A payload broadcast to subscriber queues (src/app.py lines 79-85). -/
inductive Msg where
  | scores (rows : List ScoreRow)
  | narratives (items : List Narrative)

/-- A subscriber queue.  The put call of a real asyncio queue succeeds or
raises depending on the channel; this is abstracted as the static flag ok,
and the queue contents are recorded to state delivery order. -/
structure Client where
  cid : Nat
  ok : Bool
  queue : List Msg

/-- The process-wide state dict plus the three append-only database tables
(the durable log, never truncated). -/
structure AppState where
  scores : List ScoreRow
  narratives : List Narrative
  incidents : List Incident
  clients : List Client
  dbScores : List ScoreRow
  dbNarratives : List Narrative
  dbIncidents : List Incident

/-- The worker's local state: the two price windows (the prices dict has
exactly the keys bitcoin and ethereum, in that insertion order) and the two
dedup sets (src/app.py lines 102-105). -/
structure Prices where
  bitcoin : List ℝ
  ethereum : List ℝ

structure WorkerState where
  prices : Prices
  hn_seen : List String
  reddit_seen : List String

/-- log_incident (src/app.py lines 71-77): append to the in-memory tail,
truncate it to the last 100, and insert unconditionally into the durable
incidents table. -/
def log_incident (kind message : String) (t : ℝ) (st : AppState) : AppState :=
  let inc : Incident := ⟨kind, message, t⟩
  { st with
    incidents := lastN 100 (st.incidents ++ [inc])
    dbIncidents := st.dbIncidents ++ [inc] }

/-- fetch_json (src/app.py lines 50-58).  The outcome argument models the
try-block (HTTP GET, raise_for_status, JSON parse): ok p is a parsed
payload, error e is any exception with message e.  On error the function
logs one fetch_error incident naming the URL and the cause and returns
none; it never raises. -/
def fetch_json {α : Type} (url : String) (outcome : Except String α) (now : ℝ)
    (st : AppState) : Option α × AppState :=
  match outcome with
  | .ok payload => (some payload, st)
  | .error e => (none, log_incident "fetch_error" (url ++ " -> " ++ e) now st)

/-- broadcast (src/app.py lines 87-95): attempt delivery to every client in
the registry; a client whose put raises is collected as dead and discarded
from the registry before the call returns. -/
def broadcast (payload : Msg) (clients : List Client) : List Client :=
  (clients.map fun c => if c.ok then { c with queue := c.queue ++ [payload] } else c).filter
    (fun c => c.ok)

/-- push_scores (src/app.py lines 79-81). -/
def push_scores (rows : List ScoreRow) (st : AppState) : AppState :=
  { st with scores := rows, clients := broadcast (Msg.scores rows) st.clients }

/-- push_narratives (src/app.py lines 83-85). -/
def push_narratives (rows : List Narrative) (st : AppState) : AppState :=
  { st with narratives := rows, clients := broadcast (Msg.narratives rows) st.clients }

/-- One price-window update: append the new sample, keep the last 120
(src/app.py lines 114-115). -/
def windowPush (l : List ℝ) (v : ℝ) : List ℝ := lastN 120 (l ++ [v])

/-- The dedup loop shared by the HackerNews and Reddit item feeds
(src/app.py lines 127-133 and 137-144): for each (id, title) pair, accept
it only when the id and title are non-empty (Python truthiness; a missing
field is modelled as the empty string) and the id is not in the seen set,
then add the id to the set.  Returns (narratives produced, ids accepted
this call, new seen set). -/
def dedupFold (src : String) (now : ℝ) (seen : List String) :
    List (String × String) → List Narrative × List String × List String
  | [] => ([], [], seen)
  | item :: rest =>
    if item.1 ≠ "" ∧ item.2 ≠ "" ∧ item.1 ∉ seen then
      let r := dedupFold src now (item.1 :: seen) rest
      (⟨item.2, src, now⟩ :: r.1, item.1 :: r.2.1, r.2.2)
    else
      dedupFold src now seen rest

/-- Per-source payloads, as far as the worker inspects them.  CoinGecko: the
usd value for each of the two coins (cg.get(coin,{}).get("usd",0.0)).
Wikipedia: the edits count of each item.  HackerNews: (objectID, title or
story_title or empty) of each hit.  Reddit: (id, title) of each child.
NewsAPI: the title of each article. -/
structure CGPayload where
  bitcoinUsd : ℝ
  ethereumUsd : ℝ

/-- The fetch outcome of every source for one tick.  The outer Except is
the fetch_json try-block; the inner Option is the isinstance(_, dict) shape
check the worker performs on the parsed payload (none: parsed JSON that is
not a dict of the expected shape, skipped silently). -/
structure Env where
  cg : Except String (Option CGPayload)
  wiki : Except String (Option (List ℝ))
  hn : Except String (Option (List (String × String)))
  reddit : Except String (Option (List (String × String)))
  news : Except String (Option (List String))

def cgUrl : String :=
  "https://api.coingecko.com/api/v3/simple/price?ids=bitcoin,ethereum&vs_currencies=usd"

def wikiUrl : String :=
  "https://wikimedia.org/api/rest_v1/metrics/edit/aggregate/all-projects/all-editor-types/all-page-types/daily/20240101/20240131"

def hnUrl : String := "https://hn.algolia.com/api/v1/search?tags=front_page"

def redditUrl : String := "https://www.reddit.com/r/technology/top.json?t=day&limit=10"

def newsUrl (key : String) : String :=
  "https://newsapi.org/v2/top-headlines?language=en&pageSize=10&apiKey=" ++ key

/-- The HackerNews branch of the worker: first 15 hits, deduplicated. -/
def hnStep (now : ℝ) (seen : List String) :
    Option (Option (List (String × String))) → List Narrative × List String × List String
  | some (some hits) => dedupFold "HackerNews" now seen (hits.take 15)
  | _ => ([], [], seen)

/-- The Reddit branch of the worker: all children, deduplicated. -/
def redditStep (now : ℝ) (seen : List String) :
    Option (Option (List (String × String))) → List Narrative × List String × List String
  | some (some children) => dedupFold "Reddit/technology" now seen children
  | _ => ([], [], seen)

/-- The NewsAPI branch of the worker: every article with a non-empty title
becomes a narrative; no dedup set exists for this source. -/
def newsStep (now : ℝ) : Option (Option (List String)) → List Narrative
  | some (some arts) => (arts.filter (fun t => t != "")).map (fun ttl => ⟨ttl, "NewsAPI", now⟩)
  | _ => []

/-- One row of the scores table: calc_stats over the series. -/
noncomputable def mkRow (name : String) (series : List ℝ) (now : ℝ) : ScoreRow :=
  let r := calc_stats series
  ⟨name, r.1, r.2.1, r.2.2, now⟩

/-- Python sorted(rows, key score, reverse=True): a stable descending sort
by score.  List.insertionSort with this relation places an earlier row
before a later row of equal score, matching Python's stable sort. -/
noncomputable def sortRows (rows : List ScoreRow) : List ScoreRow :=
  List.insertionSort (fun a b => b.score ≤ a.score) rows

/-- The fetch_error incident a source contributes this tick: one record on
a raising fetch, none otherwise (bookkeeping view of fetch_json, used to
state how many incidents a tick produced). -/
def fetchInc {α : Type} (url : String) (now : ℝ) : Except String α → List Incident
  | .ok _ => []
  | .error e => [⟨"fetch_error", url ++ " -> " ++ e, now⟩]

/-- The result component of the fetch_json pair. -/
def exRes {α : Type} : Except String α → Option α
  | .ok p => some p
  | .error _ => none

/-- Everything one tick produced, with its final worker and app state. -/
structure TickOut where
  ws : WorkerState
  app : AppState
  rows : List ScoreRow
  narratives : List Narrative
  hnAccepted : List String
  redditAccepted : List String
  newIncidents : List Incident

/-- One tick of the worker body (src/app.py lines 107-180), with the fetch
outcomes supplied by env and time.time() supplied as now.  Follows the
source order: CoinGecko windows, Wikipedia values, HackerNews dedup, Reddit
dedup, optional NewsAPI (only when the key is non-empty), rows from the
price windows and the wiki values, the durable batch insert, the sorted
scores snapshot with its broadcast, and the capped narratives snapshot with
its broadcast when any narratives were produced. -/
noncomputable def tick (key : String) (now : ℝ) (env : Env) (ws : WorkerState)
    (st0 : AppState) : TickOut :=
  let f1 := fetch_json cgUrl env.cg now st0
  let st1 := f1.2
  let prices1 : Prices :=
    match f1.1 with
    | some (some p) =>
        ⟨windowPush ws.prices.bitcoin p.bitcoinUsd, windowPush ws.prices.ethereum p.ethereumUsd⟩
    | _ => ws.prices
  let f2 := fetch_json wikiUrl env.wiki now st1
  let st2 := f2.2
  let wiki_vals : List ℝ :=
    match f2.1 with
    | some (some items) => lastN 10 items
    | _ => []
  let f3 := fetch_json hnUrl env.hn now st2
  let st3 := f3.2
  let hnr := hnStep now ws.hn_seen f3.1
  let f4 := fetch_json redditUrl env.reddit now st3
  let st4 := f4.2
  let redr := redditStep now ws.reddit_seen f4.1
  let news :=
    if key = "" then (([] : List Narrative), st4)
    else
      let f5 := fetch_json (newsUrl key) env.news now st4
      (newsStep now f5.1, f5.2)
  let st5 := news.2
  let narratives := hnr.1 ++ redr.1 ++ news.1
  let rows :=
    [mkRow "bitcoin" prices1.bitcoin now, mkRow "ethereum" prices1.ethereum now] ++
      (if wiki_vals.isEmpty then [] else [mkRow "wikipedia_edits" wiki_vals now])
  let st6 :=
    { st5 with
      dbScores := st5.dbScores ++ rows
      dbNarratives := st5.dbNarratives ++ narratives }
  let st7 := push_scores (sortRows rows) st6
  let st8 :=
    if narratives.isEmpty then st7
    else push_narratives (lastN 50 (st7.narratives ++ narratives)) st7
  { ws := ⟨prices1, hnr.2.2, redr.2.2⟩
    app := st8
    rows := rows
    narratives := narratives
    hnAccepted := hnr.2.1
    redditAccepted := redr.2.1
    newIncidents :=
      fetchInc cgUrl now env.cg ++ fetchInc wikiUrl now env.wiki ++ fetchInc hnUrl now env.hn ++
        fetchInc redditUrl now env.reddit ++
        (if key = "" then [] else fetchInc (newsUrl key) now env.news) }

/-- The combined process state the loop threads from tick to tick. -/
abbrev St := WorkerState × AppState

/-- The input of one loop iteration: the fetch outcomes, the clock value,
and an optional injected exception.  inject = some e models an exception
raised inside the tick body with message e (str(e) in the handler). -/
structure TickIn where
  env : Env
  now : ℝ
  inject : Option String

/-- One iteration of the while-True loop (src/app.py lines 106-185): run the
tick body; any exception it raises is caught at the tick boundary and
recorded as one loop_error incident, after which the loop sleeps and
continues.  An injected exception is modelled as raised at the start of the
body, so the body's partial effects are the identity. -/
noncomputable def workerStep (key : String) (inp : TickIn) (s : St) : St :=
  match inp.inject with
  | some e => (s.1, log_incident "loop_error" e inp.now s.2)
  | none =>
    let out := tick key inp.now inp.env s.1 s.2
    (out.ws, out.app)

/-- The worker loop run over a finite schedule of tick inputs. -/
noncomputable def runWorker (key : String) (inps : List TickIn) (s : St) : St :=
  inps.foldl (fun s i => workerStep key i s) s

/-- The HackerNews ids accepted during one loop iteration. -/
noncomputable def stepAcceptedHn (key : String) (inp : TickIn) (s : St) : List String :=
  match inp.inject with
  | some _ => []
  | none => (tick key inp.now inp.env s.1 s.2).hnAccepted

/-- The Reddit ids accepted during one loop iteration. -/
noncomputable def stepAcceptedReddit (key : String) (inp : TickIn) (s : St) : List String :=
  match inp.inject with
  | some _ => []
  | none => (tick key inp.now inp.env s.1 s.2).redditAccepted

/-- All HackerNews ids accepted over a run, in order. -/
noncomputable def runAcceptedHn (key : String) : List TickIn → St → List String
  | [], _ => []
  | i :: rest, s => stepAcceptedHn key i s ++ runAcceptedHn key rest (workerStep key i s)

/-- All Reddit ids accepted over a run, in order. -/
noncomputable def runAcceptedReddit (key : String) : List TickIn → St → List String
  | [], _ => []
  | i :: rest, s => stepAcceptedReddit key i s ++ runAcceptedReddit key rest (workerStep key i s)

/-- The initial worker state (src/app.py lines 103-105). -/
def ws0 : WorkerState := ⟨⟨[], []⟩, [], []⟩

/-- The initial app state (src/app.py lines 16-23, empty tables). -/
def st0 : AppState := ⟨[], [], [], [], [], [], []⟩

/-! ## Properties of the window (claim C5) -/

theorem lastN_eq_rtake (n : Nat) (l : List α) : lastN n l = l.rtake n := rfl

theorem lastN_of_le {n : Nat} {l : List α} (h : l.length ≤ n) : lastN n l = l := by
  rw [lastN, Nat.sub_eq_zero_of_le h, List.drop_zero]

theorem lastN_length (n : Nat) (l : List α) : (lastN n l).length = min n l.length := by
  rw [lastN, List.length_drop]
  omega

theorem lastN_length_le (n : Nat) (l : List α) : (lastN n l).length ≤ n := by
  rw [lastN_length]
  omega

theorem lastN_suffix (n : Nat) (l : List α) : lastN n l <:+ l :=
  List.drop_suffix _ _

theorem take_append_take (n : Nat) (u v : List α) :
    (u ++ v.take n).take n = (u ++ v).take n := by
  rw [List.take_append_eq_append_take, List.take_append_eq_append_take, List.take_take]
  congr 1
  congr 1
  omega

theorem lastN_append_lastN (n : Nat) (x y : List α) :
    lastN n (lastN n x ++ y) = lastN n (x ++ y) := by
  simp only [lastN_eq_rtake, List.rtake_eq_reverse_take_reverse, List.reverse_append,
    List.reverse_reverse]
  rw [take_append_take]

/-- The bitcoin usd sample a tick input carries (0 when absent). -/
def cgBtc (i : TickIn) : ℝ :=
  match i.env.cg with
  | .ok (some p) => p.bitcoinUsd
  | _ => 0

set_option maxRecDepth 4000 in
theorem tick_ws_bitcoin (key : String) (now : ℝ) (env : Env) (ws : WorkerState)
    (st : AppState) (p : CGPayload) (h : env.cg = Except.ok (some p)) :
    (tick key now env ws st).ws.prices.bitcoin = windowPush ws.prices.bitcoin p.bitcoinUsd := by
  simp [tick, fetch_json, h]

theorem foldl_windowPush (vs : List ℝ) :
    ∀ l : List ℝ, l.length ≤ 120 → vs.foldl windowPush l = lastN 120 (l ++ vs) := by
  induction vs with
  | nil => intro l h; simp [lastN_of_le h]
  | cons v vs ih =>
    intro l h
    rw [List.foldl_cons, ih (windowPush l v) (lastN_length_le _ _), windowPush,
      lastN_append_lastN]
    simp

theorem runWorker_bitcoin (key : String) (inps : List TickIn) :
    ∀ s : St, (∀ i ∈ inps, i.inject = none ∧ ∃ p, i.env.cg = Except.ok (some p)) →
      s.1.prices.bitcoin.length ≤ 120 →
      (runWorker key inps s).1.prices.bitcoin =
        lastN 120 (s.1.prices.bitcoin ++ inps.map cgBtc) := by
  induction inps with
  | nil => intro s _ h; simp [runWorker, lastN_of_le h]
  | cons i rest ih =>
    intro s hall hlen
    obtain ⟨hinj, p, hcg⟩ := hall i (List.mem_cons_self i rest)
    have hstep : (workerStep key i s).1.prices.bitcoin =
        windowPush s.1.prices.bitcoin p.bitcoinUsd := by
      rw [workerStep, hinj]
      exact tick_ws_bitcoin key i.now i.env s.1 s.2 p hcg
    have hrun : runWorker key (i :: rest) s = runWorker key rest (workerStep key i s) := by
      simp [runWorker]
    rw [hrun, ih (workerStep key i s) (fun j hj => hall j (List.mem_cons_of_mem i hj))
      (by rw [hstep, windowPush]; exact lastN_length_le _ _)]
    rw [hstep, windowPush, lastN_append_lastN]
    have hv : cgBtc i = p.bitcoinUsd := by rw [cgBtc, hcg]
    simp [hv]

/-- C5: each price-window append retains only the most recent 120 samples,
trimming the oldest from the front with order preserved (the window is a
suffix of the appended list); feeding any sequence of samples leaves the
last 120 in arrival order, so after 120 or more samples the window length
is exactly 120; and a worker run whose every tick carries a CoinGecko
price updates the bitcoin window to exactly the last 120 samples fed. -/
theorem c5_window (l : List ℝ) (v : ℝ) (vs : List ℝ) (key : String)
    (inps : List TickIn) (s : St) :
    windowPush l v = lastN 120 (l ++ [v]) ∧
    windowPush l v <:+ (l ++ [v]) ∧
    (windowPush l v).length ≤ 120 ∧
    (l.length ≤ 120 → vs.foldl windowPush l = lastN 120 (l ++ vs)) ∧
    (120 ≤ vs.length →
      vs.foldl windowPush [] = vs.drop (vs.length - 120) ∧
      (vs.foldl windowPush []).length = 120) ∧
    ((∀ i ∈ inps, i.inject = none ∧ ∃ p, i.env.cg = Except.ok (some p)) →
      s.1.prices.bitcoin.length ≤ 120 →
      (runWorker key inps s).1.prices.bitcoin =
        lastN 120 (s.1.prices.bitcoin ++ inps.map cgBtc)) := by
  refine ⟨rfl, lastN_suffix _ _, lastN_length_le _ _, fun h => foldl_windowPush vs l h,
    fun h => ?_, runWorker_bitcoin key inps s⟩
  have h0 := foldl_windowPush vs [] (by simp)
  simp only [List.nil_append] at h0
  refine ⟨h0, ?_⟩
  rw [h0, lastN_length]
  omega

theorem c5_window_witness :
    ((List.replicate 121 (0 : ℝ)).foldl windowPush [] =
        (List.replicate 121 (0 : ℝ)).drop ((List.replicate 121 (0 : ℝ)).length - 120) ∧
      ((List.replicate 121 (0 : ℝ)).foldl windowPush []).length = 120) ∧
    ([] : List ℝ).foldl windowPush [] = lastN 120 ([] ++ ([] : List ℝ)) ∧
    (runWorker "" [⟨⟨Except.ok (some ⟨1, 2⟩), Except.ok none, Except.ok none, Except.ok none,
          Except.ok none⟩, 0, none⟩] (ws0, st0)).1.prices.bitcoin =
      lastN 120 ((ws0, st0).1.prices.bitcoin ++
        ([⟨⟨Except.ok (some ⟨1, 2⟩), Except.ok none, Except.ok none, Except.ok none,
          Except.ok none⟩, 0, none⟩] : List TickIn).map cgBtc) :=
  ⟨(c5_window [] 0 (List.replicate 121 (0 : ℝ)) "" [] (ws0, st0)).2.2.2.2.1 (by simp),
   (c5_window [] 0 [] "" [] (ws0, st0)).2.2.2.1 (by simp),
   (c5_window [] 0 [] ""
      [⟨⟨Except.ok (some ⟨1, 2⟩), Except.ok none, Except.ok none, Except.ok none,
        Except.ok none⟩, 0, none⟩] (ws0, st0)).2.2.2.2.2
      (by rintro i hi; simp at hi; subst hi; exact ⟨rfl, ⟨1, 2⟩, rfl⟩) (by simp [ws0])⟩

/-! ## Fetcher contract (claim C6) -/

/-- C6: fetch_json never raises to its caller: on any failing fetch
(network error, non-success status, or payload parse failure, all of which
raise inside the try-block) it returns none and logs exactly one incident
of kind fetch_error whose message is the URL followed by the failure cause
(one record appended to the durable incidents table, and the in-memory tail
is that same append truncated to 100); on success it returns the parsed
payload and leaves the state untouched. -/
theorem c6_fetch_json (α : Type) (url : String) (e : String) (now : ℝ)
    (st : AppState) (p : α) :
    fetch_json url (Except.error e : Except String α) now st =
      (none, log_incident "fetch_error" (url ++ " -> " ++ e) now st) ∧
    (fetch_json url (Except.error e : Except String α) now st).2.incidents =
      lastN 100 (st.incidents ++ [⟨"fetch_error", url ++ " -> " ++ e, now⟩]) ∧
    (fetch_json url (Except.error e : Except String α) now st).2.dbIncidents =
      st.dbIncidents ++ [⟨"fetch_error", url ++ " -> " ++ e, now⟩] ∧
    fetch_json url (Except.ok p) now st = (some p, st) :=
  ⟨rfl, rfl, rfl, rfl⟩

/-! ## Broadcaster contract (claim C7) -/

theorem mem_broadcast_ok (p : Msg) (cs : List Client) (c : Client)
    (h : c ∈ broadcast p cs) : c.ok = true :=
  List.of_mem_filter h

theorem broadcast_eq (p : Msg) (cs : List Client) :
    broadcast p cs =
      (cs.filter fun c => c.ok).map (fun c => { c with queue := c.queue ++ [p] }) := by
  induction cs with
  | nil => rfl
  | cons c cs ih =>
    cases hc : c.ok
    · simpa [broadcast, List.filter_cons, hc] using ih
    · simpa [broadcast, List.filter_cons, hc] using ih

/-- C7: every fanout call attempts delivery to every subscriber registered
at the start of the call: each subscriber whose put succeeds has the
message appended to its queue, in registry order, and each subscriber whose
put raises is removed from the registry within that same call, so it is
absent from the registry on the next broadcast; a second broadcast reaches
exactly the survivors, each receiving both messages in the order
produced. -/
theorem c7_broadcast (p p2 : Msg) (cs : List Client) :
    broadcast p cs =
      (cs.filter fun c => c.ok).map (fun c => { c with queue := c.queue ++ [p] }) ∧
    (∀ c ∈ cs, c.ok = false → c ∉ broadcast p cs ∧ c ∉ broadcast p2 (broadcast p cs)) ∧
    (∀ c ∈ cs, c.ok = true → { c with queue := c.queue ++ [p] } ∈ broadcast p cs) ∧
    broadcast p2 (broadcast p cs) =
      (cs.filter fun c => c.ok).map (fun c => { c with queue := c.queue ++ [p, p2] }) := by
  refine ⟨broadcast_eq p cs, ?_, ?_, ?_⟩
  · intro c _ hdead
    constructor
    · intro hmem
      rw [mem_broadcast_ok p cs c hmem] at hdead
      exact Bool.noConfusion hdead
    · intro hmem
      rw [mem_broadcast_ok p2 (broadcast p cs) c hmem] at hdead
      exact Bool.noConfusion hdead
  · intro c hmem hok
    rw [broadcast_eq]
    exact List.mem_map.mpr ⟨c, List.mem_filter.mpr ⟨hmem, hok⟩, rfl⟩
  · rw [broadcast_eq p cs, broadcast_eq p2]
    have hall : ((cs.filter fun c => c.ok).map
        (fun c => { c with queue := c.queue ++ [p] })).filter (fun c => c.ok) =
        (cs.filter fun c => c.ok).map (fun c => { c with queue := c.queue ++ [p] }) := by
      apply List.filter_eq_self.mpr
      intro c hc
      obtain ⟨d, hd, rfl⟩ := List.mem_map.mp hc
      simpa using List.of_mem_filter hd
    rw [hall, List.map_map]
    apply List.map_congr_left
    intro c _
    simp

theorem c7_broadcast_witness :
    (⟨1, false, []⟩ : Client) ∉
      broadcast (Msg.scores []) [⟨0, true, []⟩, ⟨1, false, []⟩] ∧
    (⟨0, true, [Msg.scores []]⟩ : Client) ∈
      broadcast (Msg.scores []) [⟨0, true, []⟩, ⟨1, false, []⟩] :=
  ⟨((c7_broadcast (Msg.scores []) (Msg.scores [])
      [⟨0, true, []⟩, ⟨1, false, []⟩]).2.1 ⟨1, false, []⟩ (by simp) rfl).1,
   by
    have h := (c7_broadcast (Msg.scores []) (Msg.scores [])
      [⟨0, true, []⟩, ⟨1, false, []⟩]).2.2.1 ⟨0, true, []⟩ (by simp) rfl
    simpa using h⟩

/-! ## Loop containment (claim C4) -/

/-- C4: an exception raised inside the body of a tick is caught at the tick
boundary: the worker state is unchanged, exactly one incident of kind
loop_error carrying the exception message is recorded (appended to the
durable table, and the in-memory tail is that append truncated to 100), and
the loop keeps going: a run whose schedule contains the failing tick
factors through it and continues with every later tick, so the worker never
terminates because one tick failed. -/
theorem c4_loop_error (key : String) (pre post : List TickIn) (i : TickIn)
    (e : String) (s0 s : St) (h : i.inject = some e) :
    workerStep key i s = (s.1, log_incident "loop_error" e i.now s.2) ∧
    (workerStep key i s).2.incidents =
      lastN 100 (s.2.incidents ++ [⟨"loop_error", e, i.now⟩]) ∧
    (workerStep key i s).2.dbIncidents = s.2.dbIncidents ++ [⟨"loop_error", e, i.now⟩] ∧
    runWorker key (pre ++ i :: post) s0 =
      runWorker key post (workerStep key i (runWorker key pre s0)) := by
  refine ⟨?_, ?_, ?_, ?_⟩
  · rw [workerStep, h]
  · rw [workerStep, h]
    rfl
  · rw [workerStep, h]
    rfl
  · simp [runWorker, List.foldl_append]

theorem c4_loop_error_witness :
    workerStep "" ⟨⟨Except.ok none, Except.ok none, Except.ok none, Except.ok none,
        Except.ok none⟩, 0, some "boom"⟩ (ws0, st0) =
      ((ws0, st0).1, log_incident "loop_error" "boom" 0 (ws0, st0).2) ∧
    (workerStep "" ⟨⟨Except.ok none, Except.ok none, Except.ok none, Except.ok none,
        Except.ok none⟩, 0, some "boom"⟩ (ws0, st0)).2.incidents =
      lastN 100 (st0.incidents ++ [⟨"loop_error", "boom", 0⟩]) :=
  ⟨(c4_loop_error "" [] [] _ "boom" (ws0, st0) (ws0, st0) rfl).1,
   (c4_loop_error "" [] [] _ "boom" (ws0, st0) (ws0, st0) rfl).2.1⟩

/-! ## Snapshot bounds (claim C8) -/

theorem log_incident_incidents_le (k m : String) (t : ℝ) (st : AppState) :
    (log_incident k m t st).incidents.length ≤ 100 :=
  lastN_length_le _ _

theorem fetch_snd_narratives {α : Type} (url : String) (o : Except String α) (now : ℝ)
    (st : AppState) : (fetch_json url o now st).2.narratives = st.narratives := by
  cases o <;> rfl

theorem fetch_snd_incidents_le {α : Type} (url : String) (o : Except String α) (now : ℝ)
    (st : AppState) (h : st.incidents.length ≤ 100) :
    (fetch_json url o now st).2.incidents.length ≤ 100 := by
  cases o with
  | error e => exact lastN_length_le _ _
  | ok p => exact h

/-- The two in-memory snapshot bounds the worker maintains. -/
def SnapBounds (st : AppState) : Prop :=
  st.narratives.length ≤ 50 ∧ st.incidents.length ≤ 100

set_option maxRecDepth 4000 in
theorem tick_snapBounds (key : String) (now : ℝ) (env : Env) (ws : WorkerState)
    (st : AppState) (h : SnapBounds st) : SnapBounds (tick key now env ws st).app := by
  obtain ⟨hn, hi⟩ := h
  constructor
  · simp only [tick, push_scores, push_narratives]
    split <;> split <;>
      first
        | exact lastN_length_le _ _
        | simp [fetch_snd_narratives, hn]
  · simp only [tick, push_scores, push_narratives]
    split <;> split <;>
      first
        | exact fetch_snd_incidents_le _ _ _ _ (fetch_snd_incidents_le _ _ _ _
            (fetch_snd_incidents_le _ _ _ _ (fetch_snd_incidents_le _ _ _ _ hi)))
        | exact fetch_snd_incidents_le _ _ _ _ (fetch_snd_incidents_le _ _ _ _
            (fetch_snd_incidents_le _ _ _ _ (fetch_snd_incidents_le _ _ _ _
              (fetch_snd_incidents_le _ _ _ _ hi))))

theorem workerStep_snapBounds (key : String) (i : TickIn) (s : St)
    (h : SnapBounds s.2) : SnapBounds (workerStep key i s).2 := by
  rw [workerStep]
  cases hinj : i.inject
  · exact tick_snapBounds key i.now i.env s.1 s.2 h
  · exact ⟨h.1, log_incident_incidents_le _ _ _ _⟩

theorem runWorker_snapBounds (key : String) (inps : List TickIn) :
    ∀ s : St, SnapBounds s.2 → SnapBounds (runWorker key inps s).2 := by
  induction inps with
  | nil => intro s h; exact h
  | cons i rest ih =>
    intro s h
    have hrun : runWorker key (i :: rest) s = runWorker key rest (workerStep key i s) := by
      simp [runWorker]
    rw [hrun]
    exact ih (workerStep key i s) (workerStep_snapBounds key i s h)

/-- C8: logging an incident always leaves the in-memory incidents tail at
or below 100 records, and from any state within bounds (in particular from
the empty initial state) the state after every prefix of a worker run keeps
the narratives snapshot at or below 50 items and the incidents tail at or
below 100 records, each holding the most recent entries by construction
(both are maintained with a last-n truncation of an append). -/
theorem c8_snapshot_bounds (key : String) (inps : List TickIn) (s : St)
    (hn : s.2.narratives.length ≤ 50) (hi : s.2.incidents.length ≤ 100) :
    (∀ k m : String, ∀ t : ℝ, ∀ st : AppState,
      (log_incident k m t st).incidents.length ≤ 100) ∧
    (∀ n : Nat, (runWorker key (inps.take n) s).2.narratives.length ≤ 50 ∧
      (runWorker key (inps.take n) s).2.incidents.length ≤ 100) :=
  ⟨fun k m t st => log_incident_incidents_le k m t st,
   fun n => runWorker_snapBounds key (inps.take n) s ⟨hn, hi⟩⟩

theorem c8_snapshot_bounds_witness :
    (log_incident "fetch_error" "x" 0 st0).incidents.length ≤ 100 ∧
    (runWorker "" (([⟨⟨Except.ok none, Except.ok none, Except.ok none, Except.ok none,
        Except.ok none⟩, 0, none⟩] : List TickIn).take 1) (ws0, st0)).2.narratives.length ≤ 50 :=
  ⟨(c8_snapshot_bounds "" [] (ws0, st0) (by simp [st0]) (by simp [st0])).1
      "fetch_error" "x" 0 st0,
   ((c8_snapshot_bounds "" [⟨⟨Except.ok none, Except.ok none, Except.ok none, Except.ok none,
        Except.ok none⟩, 0, none⟩] (ws0, st0) (by simp [st0]) (by simp [st0])).2 1).1⟩

/-! ## Dedup (claim C2) -/

theorem dedupFold_seen_mono (src : String) (now : ℝ) (a : String) :
    ∀ (items : List (String × String)) (seen : List String), a ∈ seen →
      a ∈ (dedupFold src now seen items).2.2 := by
  intro items
  induction items with
  | nil => intro seen h; exact h
  | cons item rest ih =>
    intro seen h
    rw [dedupFold]
    split
    · exact ih (item.1 :: seen) (List.mem_cons_of_mem _ h)
    · exact ih seen h

theorem dedupFold_accepted_sub_seen (src : String) (now : ℝ) (a : String) :
    ∀ (items : List (String × String)) (seen : List String),
      a ∈ (dedupFold src now seen items).2.1 → a ∈ (dedupFold src now seen items).2.2 := by
  intro items
  induction items with
  | nil => intro seen h; exact absurd h (List.not_mem_nil a)
  | cons item rest ih =>
    intro seen h
    rw [dedupFold] at h ⊢
    by_cases hcond : item.1 ≠ "" ∧ item.2 ≠ "" ∧ item.1 ∉ seen
    · rw [if_pos hcond] at h ⊢
      simp only at h ⊢
      rcases List.mem_cons.mp h with h1 | h2
      · subst h1
        exact dedupFold_seen_mono src now item.1 rest (item.1 :: seen)
          (List.mem_cons_self item.1 seen)
      · exact ih (item.1 :: seen) h2
    · rw [if_neg hcond] at h ⊢
      exact ih seen h

theorem dedupFold_not_accepted_of_seen (src : String) (now : ℝ) (a : String) :
    ∀ (items : List (String × String)) (seen : List String), a ∈ seen →
      a ∉ (dedupFold src now seen items).2.1 := by
  intro items
  induction items with
  | nil => intro seen _; exact List.not_mem_nil a
  | cons item rest ih =>
    intro seen hseen
    rw [dedupFold]
    by_cases hcond : item.1 ≠ "" ∧ item.2 ≠ "" ∧ item.1 ∉ seen
    · rw [if_pos hcond]
      simp only
      intro hmem
      rcases List.mem_cons.mp hmem with h1 | h2
      · exact hcond.2.2 (h1 ▸ hseen)
      · exact ih (item.1 :: seen) (List.mem_cons_of_mem _ hseen) h2
    · rw [if_neg hcond]
      exact ih seen hseen

theorem dedupFold_accepted_nodup (src : String) (now : ℝ) :
    ∀ (items : List (String × String)) (seen : List String),
      (dedupFold src now seen items).2.1.Nodup := by
  intro items
  induction items with
  | nil => intro seen; exact List.nodup_nil
  | cons item rest ih =>
    intro seen
    rw [dedupFold]
    by_cases hcond : item.1 ≠ "" ∧ item.2 ≠ "" ∧ item.1 ∉ seen
    · rw [if_pos hcond]
      simp only
      exact List.nodup_cons.mpr
        ⟨dedupFold_not_accepted_of_seen src now item.1 rest (item.1 :: seen)
          (List.mem_cons_self item.1 seen),
         ih (item.1 :: seen)⟩
    · rw [if_neg hcond]
      exact ih seen

theorem dedupFold_source (src : String) (now : ℝ) (nr : Narrative) :
    ∀ (items : List (String × String)) (seen : List String),
      nr ∈ (dedupFold src now seen items).1 → nr.source = src := by
  intro items
  induction items with
  | nil => intro seen h; exact absurd h (List.not_mem_nil nr)
  | cons item rest ih =>
    intro seen h
    rw [dedupFold] at h
    by_cases hcond : item.1 ≠ "" ∧ item.2 ≠ "" ∧ item.1 ∉ seen
    · rw [if_pos hcond] at h
      simp only at h
      rcases List.mem_cons.mp h with h1 | h2
      · rw [h1]
      · exact ih (item.1 :: seen) h2
    · rw [if_neg hcond] at h
      exact ih seen h

theorem dedupFold_length (src : String) (now : ℝ) :
    ∀ (items : List (String × String)) (seen : List String),
      (dedupFold src now seen items).1.length = (dedupFold src now seen items).2.1.length := by
  intro items
  induction items with
  | nil => intro seen; rfl
  | cons item rest ih =>
    intro seen
    rw [dedupFold]
    by_cases hcond : item.1 ≠ "" ∧ item.2 ≠ "" ∧ item.1 ∉ seen
    · rw [if_pos hcond]
      simp only [List.length_cons, ih (item.1 :: seen)]
    · rw [if_neg hcond]
      exact ih seen

theorem fetch_fst {α : Type} (url : String) (o : Except String α) (now : ℝ)
    (st : AppState) : (fetch_json url o now st).1 = exRes o := by
  cases o <;> rfl

set_option maxRecDepth 4000 in
theorem tick_hn_fields (key : String) (now : ℝ) (env : Env) (ws : WorkerState)
    (st : AppState) :
    (tick key now env ws st).hnAccepted = (hnStep now ws.hn_seen (exRes env.hn)).2.1 ∧
    (tick key now env ws st).ws.hn_seen = (hnStep now ws.hn_seen (exRes env.hn)).2.2 := by
  constructor <;> simp [tick, fetch_fst]

set_option maxRecDepth 4000 in
theorem tick_reddit_fields (key : String) (now : ℝ) (env : Env) (ws : WorkerState)
    (st : AppState) :
    (tick key now env ws st).redditAccepted =
      (redditStep now ws.reddit_seen (exRes env.reddit)).2.1 ∧
    (tick key now env ws st).ws.reddit_seen =
      (redditStep now ws.reddit_seen (exRes env.reddit)).2.2 := by
  constructor <;> simp [tick, fetch_fst]

theorem hnStep_seen_mono (now : ℝ) (seen : List String) (r : Option (Option (List (String × String))))
    (a : String) (h : a ∈ seen) : a ∈ (hnStep now seen r).2.2 := by
  match r with
  | some (some hits) => exact dedupFold_seen_mono _ now a (hits.take 15) seen h
  | some none => exact h
  | none => exact h

theorem hnStep_accepted_sub_seen (now : ℝ) (seen : List String)
    (r : Option (Option (List (String × String)))) (a : String)
    (h : a ∈ (hnStep now seen r).2.1) : a ∈ (hnStep now seen r).2.2 := by
  match r with
  | some (some hits) => exact dedupFold_accepted_sub_seen _ now a (hits.take 15) seen h
  | some none => exact absurd h (List.not_mem_nil a)
  | none => exact absurd h (List.not_mem_nil a)

theorem hnStep_not_accepted_of_seen (now : ℝ) (seen : List String)
    (r : Option (Option (List (String × String)))) (a : String) (h : a ∈ seen) :
    a ∉ (hnStep now seen r).2.1 := by
  match r with
  | some (some hits) => exact dedupFold_not_accepted_of_seen _ now a (hits.take 15) seen h
  | some none => exact List.not_mem_nil a
  | none => exact List.not_mem_nil a

theorem hnStep_accepted_nodup (now : ℝ) (seen : List String)
    (r : Option (Option (List (String × String)))) : (hnStep now seen r).2.1.Nodup := by
  match r with
  | some (some hits) => exact dedupFold_accepted_nodup _ now (hits.take 15) seen
  | some none => exact List.nodup_nil
  | none => exact List.nodup_nil

theorem redditStep_seen_mono (now : ℝ) (seen : List String)
    (r : Option (Option (List (String × String)))) (a : String) (h : a ∈ seen) :
    a ∈ (redditStep now seen r).2.2 := by
  match r with
  | some (some children) => exact dedupFold_seen_mono _ now a children seen h
  | some none => exact h
  | none => exact h

theorem redditStep_accepted_sub_seen (now : ℝ) (seen : List String)
    (r : Option (Option (List (String × String)))) (a : String)
    (h : a ∈ (redditStep now seen r).2.1) : a ∈ (redditStep now seen r).2.2 := by
  match r with
  | some (some children) => exact dedupFold_accepted_sub_seen _ now a children seen h
  | some none => exact absurd h (List.not_mem_nil a)
  | none => exact absurd h (List.not_mem_nil a)

theorem redditStep_not_accepted_of_seen (now : ℝ) (seen : List String)
    (r : Option (Option (List (String × String)))) (a : String) (h : a ∈ seen) :
    a ∉ (redditStep now seen r).2.1 := by
  match r with
  | some (some children) => exact dedupFold_not_accepted_of_seen _ now a children seen h
  | some none => exact List.not_mem_nil a
  | none => exact List.not_mem_nil a

theorem redditStep_accepted_nodup (now : ℝ) (seen : List String)
    (r : Option (Option (List (String × String)))) : (redditStep now seen r).2.1.Nodup := by
  match r with
  | some (some children) => exact dedupFold_accepted_nodup _ now children seen
  | some none => exact List.nodup_nil
  | none => exact List.nodup_nil

theorem step_hn_seen_mono (key : String) (i : TickIn) (s : St) (a : String)
    (h : a ∈ s.1.hn_seen) : a ∈ (workerStep key i s).1.hn_seen := by
  rw [workerStep]
  cases i.inject
  · rw [(tick_hn_fields key i.now i.env s.1 s.2).2]
    exact hnStep_seen_mono i.now s.1.hn_seen (exRes i.env.hn) a h
  · exact h

theorem step_hn_accepted_sub_seen (key : String) (i : TickIn) (s : St) (a : String)
    (h : a ∈ stepAcceptedHn key i s) : a ∈ (workerStep key i s).1.hn_seen := by
  rw [workerStep]
  rw [stepAcceptedHn] at h
  cases hinj : i.inject <;> rw [hinj] at h
  · rw [(tick_hn_fields key i.now i.env s.1 s.2).2]
    rw [(tick_hn_fields key i.now i.env s.1 s.2).1] at h
    exact hnStep_accepted_sub_seen i.now s.1.hn_seen (exRes i.env.hn) a h
  · exact absurd h (List.not_mem_nil a)

theorem step_hn_not_accepted_of_seen (key : String) (i : TickIn) (s : St) (a : String)
    (h : a ∈ s.1.hn_seen) : a ∉ stepAcceptedHn key i s := by
  rw [stepAcceptedHn]
  cases i.inject
  · rw [(tick_hn_fields key i.now i.env s.1 s.2).1]
    exact hnStep_not_accepted_of_seen i.now s.1.hn_seen (exRes i.env.hn) a h
  · exact List.not_mem_nil a

theorem step_hn_nodup (key : String) (i : TickIn) (s : St) :
    (stepAcceptedHn key i s).Nodup := by
  rw [stepAcceptedHn]
  cases i.inject
  · rw [(tick_hn_fields key i.now i.env s.1 s.2).1]
    exact hnStep_accepted_nodup i.now s.1.hn_seen (exRes i.env.hn)
  · exact List.nodup_nil

theorem step_reddit_seen_mono (key : String) (i : TickIn) (s : St) (a : String)
    (h : a ∈ s.1.reddit_seen) : a ∈ (workerStep key i s).1.reddit_seen := by
  rw [workerStep]
  cases i.inject
  · rw [(tick_reddit_fields key i.now i.env s.1 s.2).2]
    exact redditStep_seen_mono i.now s.1.reddit_seen (exRes i.env.reddit) a h
  · exact h

theorem step_reddit_accepted_sub_seen (key : String) (i : TickIn) (s : St) (a : String)
    (h : a ∈ stepAcceptedReddit key i s) : a ∈ (workerStep key i s).1.reddit_seen := by
  rw [workerStep]
  rw [stepAcceptedReddit] at h
  cases hinj : i.inject <;> rw [hinj] at h
  · rw [(tick_reddit_fields key i.now i.env s.1 s.2).2]
    rw [(tick_reddit_fields key i.now i.env s.1 s.2).1] at h
    exact redditStep_accepted_sub_seen i.now s.1.reddit_seen (exRes i.env.reddit) a h
  · exact absurd h (List.not_mem_nil a)

theorem step_reddit_not_accepted_of_seen (key : String) (i : TickIn) (s : St) (a : String)
    (h : a ∈ s.1.reddit_seen) : a ∉ stepAcceptedReddit key i s := by
  rw [stepAcceptedReddit]
  cases i.inject
  · rw [(tick_reddit_fields key i.now i.env s.1 s.2).1]
    exact redditStep_not_accepted_of_seen i.now s.1.reddit_seen (exRes i.env.reddit) a h
  · exact List.not_mem_nil a

theorem step_reddit_nodup (key : String) (i : TickIn) (s : St) :
    (stepAcceptedReddit key i s).Nodup := by
  rw [stepAcceptedReddit]
  cases i.inject
  · rw [(tick_reddit_fields key i.now i.env s.1 s.2).1]
    exact redditStep_accepted_nodup i.now s.1.reddit_seen (exRes i.env.reddit)
  · exact List.nodup_nil

theorem runAcceptedHn_count_zero (key : String) (a : String) :
    ∀ (inps : List TickIn) (s : St), a ∈ s.1.hn_seen →
      (runAcceptedHn key inps s).count a = 0 := by
  intro inps
  induction inps with
  | nil => intro s _; rfl
  | cons i rest ih =>
    intro s h
    rw [runAcceptedHn, List.count_append]
    rw [List.count_eq_zero.mpr (step_hn_not_accepted_of_seen key i s a h),
      ih (workerStep key i s) (step_hn_seen_mono key i s a h)]

theorem runAcceptedHn_count_le_one (key : String) (a : String) :
    ∀ (inps : List TickIn) (s : St), (runAcceptedHn key inps s).count a ≤ 1 := by
  intro inps
  induction inps with
  | nil => intro s; simp [runAcceptedHn]
  | cons i rest ih =>
    intro s
    rw [runAcceptedHn, List.count_append]
    by_cases hmem : a ∈ stepAcceptedHn key i s
    · have h1 : (stepAcceptedHn key i s).count a ≤ 1 :=
        List.nodup_iff_count_le_one.mp (step_hn_nodup key i s) a
      have h2 : (runAcceptedHn key rest (workerStep key i s)).count a = 0 :=
        runAcceptedHn_count_zero key a rest (workerStep key i s)
          (step_hn_accepted_sub_seen key i s a hmem)
      omega
    · have h1 : (stepAcceptedHn key i s).count a = 0 := List.count_eq_zero.mpr hmem
      have h2 := ih (workerStep key i s)
      omega

theorem runAcceptedReddit_count_zero (key : String) (a : String) :
    ∀ (inps : List TickIn) (s : St), a ∈ s.1.reddit_seen →
      (runAcceptedReddit key inps s).count a = 0 := by
  intro inps
  induction inps with
  | nil => intro s _; rfl
  | cons i rest ih =>
    intro s h
    rw [runAcceptedReddit, List.count_append]
    rw [List.count_eq_zero.mpr (step_reddit_not_accepted_of_seen key i s a h),
      ih (workerStep key i s) (step_reddit_seen_mono key i s a h)]

theorem runAcceptedReddit_count_le_one (key : String) (a : String) :
    ∀ (inps : List TickIn) (s : St), (runAcceptedReddit key inps s).count a ≤ 1 := by
  intro inps
  induction inps with
  | nil => intro s; simp [runAcceptedReddit]
  | cons i rest ih =>
    intro s
    rw [runAcceptedReddit, List.count_append]
    by_cases hmem : a ∈ stepAcceptedReddit key i s
    · have h1 : (stepAcceptedReddit key i s).count a ≤ 1 :=
        List.nodup_iff_count_le_one.mp (step_reddit_nodup key i s) a
      have h2 : (runAcceptedReddit key rest (workerStep key i s)).count a = 0 :=
        runAcceptedReddit_count_zero key a rest (workerStep key i s)
          (step_reddit_accepted_sub_seen key i s a hmem)
      omega
    · have h1 : (stepAcceptedReddit key i s).count a = 0 := List.count_eq_zero.mpr hmem
      have h2 := ih (workerStep key i s)
      omega

/-- C2: over any worker run, each item identifier is accepted at most once
per deduplicated source (HackerNews and Reddit, the feeds that carry
identifiers): an identifier already in the seen set is never accepted again
(so a duplicate arriving any number of ticks later contributes no
NarrativeItem to the batch, the snapshot or the store), and each accepted
identifier corresponds to exactly one produced NarrativeItem (the dedup
loop emits one narrative per accepted id). -/
theorem c2_dedup_once (key : String) (inps : List TickIn) (s : St) (nid : String)
    (src : String) (now : ℝ) (seen : List String) (items : List (String × String)) :
    (runAcceptedHn key inps s).count nid ≤ 1 ∧
    (runAcceptedReddit key inps s).count nid ≤ 1 ∧
    (nid ∈ s.1.hn_seen → (runAcceptedHn key inps s).count nid = 0) ∧
    (nid ∈ s.1.reddit_seen → (runAcceptedReddit key inps s).count nid = 0) ∧
    (dedupFold src now seen items).1.length = (dedupFold src now seen items).2.1.length :=
  ⟨runAcceptedHn_count_le_one key nid inps s,
   runAcceptedReddit_count_le_one key nid inps s,
   fun h => runAcceptedHn_count_zero key nid inps s h,
   fun h => runAcceptedReddit_count_zero key nid inps s h,
   dedupFold_length src now items seen⟩

/-- A two-tick schedule feeding the same HackerNews id twice. -/
def envC2 : Env :=
  ⟨Except.ok none, Except.ok none, Except.ok (some [("a", "t1"), ("c", "t2")]),
    Except.ok (some [("b", "r1")]), Except.ok none⟩

theorem c2_dedup_once_witness :
    (runAcceptedHn "" [⟨envC2, 0, none⟩, ⟨envC2, 1, none⟩] (ws0, st0)).count "a" ≤ 1 ∧
    (runAcceptedHn "" [⟨envC2, 0, none⟩]
      ((⟨⟨[], []⟩, ["a"], ["b"]⟩ : WorkerState), st0)).count "a" = 0 ∧
    (runAcceptedReddit "" [⟨envC2, 0, none⟩]
      ((⟨⟨[], []⟩, ["a"], ["b"]⟩ : WorkerState), st0)).count "b" = 0 :=
  ⟨(c2_dedup_once "" [⟨envC2, 0, none⟩, ⟨envC2, 1, none⟩] (ws0, st0) "a" "" 0 [] []).1,
   (c2_dedup_once "" [⟨envC2, 0, none⟩] ((⟨⟨[], []⟩, ["a"], ["b"]⟩ : WorkerState), st0)
      "a" "" 0 [] []).2.2.1 (by simp),
   (c2_dedup_once "" [⟨envC2, 0, none⟩] ((⟨⟨[], []⟩, ["a"], ["b"]⟩ : WorkerState), st0)
      "b" "" 0 [] []).2.2.2.1 (by simp)⟩

/-! ## Per-source failure containment (claim C1) -/

/-- The price-window update of one tick, as a function of the CoinGecko
result (identity when the fetch failed or the payload is shapeless). -/
def pricesStep (pr : Prices) : Option (Option CGPayload) → Prices
  | some (some p) => ⟨windowPush pr.bitcoin p.bitcoinUsd, windowPush pr.ethereum p.ethereumUsd⟩
  | _ => pr

/-- The wiki values of one tick: the edits of the last 10 items, empty
when the fetch failed or the payload is shapeless. -/
def wikiVals : Option (Option (List ℝ)) → List ℝ
  | some (some items) => lastN 10 items
  | _ => []

set_option maxRecDepth 4000 in
theorem tick_narratives_eq (key : String) (now : ℝ) (env : Env) (ws : WorkerState)
    (st : AppState) :
    (tick key now env ws st).narratives =
      (hnStep now ws.hn_seen (exRes env.hn)).1 ++
        (redditStep now ws.reddit_seen (exRes env.reddit)).1 ++
        (if key = "" then [] else newsStep now (exRes env.news)) := by
  by_cases hk : key = "" <;> simp [tick, fetch_fst, hk]

set_option maxRecDepth 4000 in
theorem tick_rows_eq (key : String) (now : ℝ) (env : Env) (ws : WorkerState)
    (st : AppState) :
    (tick key now env ws st).rows =
      [mkRow "bitcoin" (pricesStep ws.prices (exRes env.cg)).bitcoin now,
        mkRow "ethereum" (pricesStep ws.prices (exRes env.cg)).ethereum now] ++
        (if (wikiVals (exRes env.wiki)).isEmpty then []
          else [mkRow "wikipedia_edits" (wikiVals (exRes env.wiki)) now]) := by
  simp only [tick, fetch_fst]
  cases hcg : exRes env.cg with
  | none => cases hw : exRes env.wiki <;> simp [pricesStep, wikiVals]
  | some pc => cases pc <;> cases hw : exRes env.wiki <;> simp [pricesStep, wikiVals]

set_option maxRecDepth 4000 in
theorem tick_ws_eq (key : String) (now : ℝ) (env : Env) (ws : WorkerState)
    (st : AppState) :
    (tick key now env ws st).ws =
      ⟨pricesStep ws.prices (exRes env.cg),
        (hnStep now ws.hn_seen (exRes env.hn)).2.2,
        (redditStep now ws.reddit_seen (exRes env.reddit)).2.2⟩ := by
  simp only [tick, fetch_fst]
  cases hcg : exRes env.cg with
  | none => simp [pricesStep]
  | some pc => cases pc <;> simp [pricesStep]

theorem fetch_snd_dbIncidents {α : Type} (url : String) (o : Except String α) (now : ℝ)
    (st : AppState) :
    (fetch_json url o now st).2.dbIncidents = st.dbIncidents ++ fetchInc url now o := by
  cases o <;> simp [fetch_json, log_incident, fetchInc]

set_option maxRecDepth 4000 in
theorem tick_dbIncidents (key : String) (now : ℝ) (env : Env) (ws : WorkerState)
    (st : AppState) :
    (tick key now env ws st).app.dbIncidents =
      st.dbIncidents ++ (tick key now env ws st).newIncidents := by
  by_cases hk : key = "" <;>
    simp only [tick, push_scores, push_narratives, hk, if_true, if_false, ite_true,
      ite_false] <;>
    split <;>
    simp [fetch_snd_dbIncidents, List.append_assoc, hk]

theorem hnStep_source (now : ℝ) (seen : List String)
    (r : Option (Option (List (String × String)))) (nr : Narrative)
    (h : nr ∈ (hnStep now seen r).1) : nr.source = "HackerNews" := by
  match r with
  | some (some hits) => exact dedupFold_source _ now nr (hits.take 15) seen h
  | some none => exact absurd h (List.not_mem_nil nr)
  | none => exact absurd h (List.not_mem_nil nr)

theorem redditStep_source (now : ℝ) (seen : List String)
    (r : Option (Option (List (String × String)))) (nr : Narrative)
    (h : nr ∈ (redditStep now seen r).1) : nr.source = "Reddit/technology" := by
  match r with
  | some (some children) => exact dedupFold_source _ now nr children seen h
  | some none => exact absurd h (List.not_mem_nil nr)
  | none => exact absurd h (List.not_mem_nil nr)

theorem newsStep_source (now : ℝ) (r : Option (Option (List String))) (nr : Narrative)
    (h : nr ∈ newsStep now r) : nr.source = "NewsAPI" := by
  match r with
  | some (some arts) =>
    obtain ⟨t, _, rfl⟩ := List.mem_map.mp h
    rfl
  | some none => exact absurd h (List.not_mem_nil nr)
  | none => exact absurd h (List.not_mem_nil nr)

set_option maxRecDepth 8000 in
theorem c1_hn_part (key : String) (now : ℝ) (env : Env) (ws : WorkerState) (st : AppState)
    (e : String) (pc : Option CGPayload) (pw : Option (List ℝ))
    (pr : Option (List (String × String))) (pn : Option (List String))
    (hcg : env.cg = Except.ok pc) (hwiki : env.wiki = Except.ok pw)
    (hhn : env.hn = Except.error e) (hred : env.reddit = Except.ok pr)
    (hnews : env.news = Except.ok pn) :
    (∀ nr ∈ (tick key now env ws st).narratives, nr.source ≠ "HackerNews") ∧
    (tick key now env ws st).ws.hn_seen = ws.hn_seen ∧
    (tick key now env ws st).newIncidents =
      [⟨"fetch_error", hnUrl ++ " -> " ++ e, now⟩] ∧
    (tick key now env ws st).app.dbIncidents =
      st.dbIncidents ++ [⟨"fetch_error", hnUrl ++ " -> " ++ e, now⟩] ∧
    (tick key now env ws st).app.incidents =
      lastN 100 (st.incidents ++ [⟨"fetch_error", hnUrl ++ " -> " ++ e, now⟩]) ∧
    (tick key now env ws st).rows =
      (tick key now { env with hn := Except.ok none } ws st).rows ∧
    (tick key now env ws st).narratives =
      (tick key now { env with hn := Except.ok none } ws st).narratives ∧
    (tick key now env ws st).ws = (tick key now { env with hn := Except.ok none } ws st).ws ∧
    (tick key now { env with hn := Except.ok none } ws st).newIncidents = [] := by
  obtain ⟨cg, wiki, hnf, red, nws⟩ := env
  simp only at hcg hwiki hhn hred hnews
  subst hcg hwiki hhn hred hnews
  have h3 : (tick key now ⟨Except.ok pc, Except.ok pw, Except.error e, Except.ok pr,
      Except.ok pn⟩ ws st).newIncidents =
      [⟨"fetch_error", hnUrl ++ " -> " ++ e, now⟩] := by
    simp [tick, fetchInc]
  refine ⟨?_, ?_, h3, ?_, ?_, ?_, ?_, ?_, ?_⟩
  · rw [tick_narratives_eq]
    intro nr h
    simp only [exRes, hnStep, List.nil_append] at h
    rcases List.mem_append.mp h with h | h
    · rw [redditStep_source now ws.reddit_seen _ nr h]
      decide
    · by_cases hk : key = ""
      · rw [if_pos hk] at h
        exact absurd h (List.not_mem_nil nr)
      · rw [if_neg hk] at h
        rw [newsStep_source now _ nr h]
        decide
  · rw [(tick_hn_fields key now _ ws st).2]
    rfl
  · rw [tick_dbIncidents, h3]
  · by_cases hk : key = "" <;>
      simp only [tick, push_scores, push_narratives, fetch_json, hk, if_true, if_false,
        ite_true, ite_false] <;>
      split <;> rfl
  · rw [tick_rows_eq, tick_rows_eq]
  · rw [tick_narratives_eq, tick_narratives_eq]
    rfl
  · rw [tick_ws_eq, tick_ws_eq]
    rfl
  · simp [tick, fetchInc]

set_option maxRecDepth 8000 in
theorem c1_cg_part (key : String) (now : ℝ) (env : Env) (ws : WorkerState) (st : AppState)
    (e : String) (pw : Option (List ℝ)) (ph pr : Option (List (String × String)))
    (pn : Option (List String))
    (hcg : env.cg = Except.error e) (hwiki : env.wiki = Except.ok pw)
    (hhn : env.hn = Except.ok ph) (hred : env.reddit = Except.ok pr)
    (hnews : env.news = Except.ok pn) :
    (tick key now env ws st).ws.prices = ws.prices ∧
    ((tick key now env ws st).rows.map (fun r => r.name)).take 2 = ["bitcoin", "ethereum"] ∧
    (tick key now env ws st).newIncidents =
      [⟨"fetch_error", cgUrl ++ " -> " ++ e, now⟩] ∧
    (tick key now env ws st).app.dbIncidents =
      st.dbIncidents ++ [⟨"fetch_error", cgUrl ++ " -> " ++ e, now⟩] ∧
    (tick key now env ws st).app.incidents =
      lastN 100 (st.incidents ++ [⟨"fetch_error", cgUrl ++ " -> " ++ e, now⟩]) ∧
    (tick key now env ws st).rows =
      (tick key now { env with cg := Except.ok none } ws st).rows ∧
    (tick key now env ws st).narratives =
      (tick key now { env with cg := Except.ok none } ws st).narratives ∧
    (tick key now env ws st).ws = (tick key now { env with cg := Except.ok none } ws st).ws ∧
    (tick key now { env with cg := Except.ok none } ws st).newIncidents = [] := by
  obtain ⟨cg, wiki, hnf, red, nws⟩ := env
  simp only at hcg hwiki hhn hred hnews
  subst hcg hwiki hhn hred hnews
  have h3 : (tick key now ⟨Except.error e, Except.ok pw, Except.ok ph, Except.ok pr,
      Except.ok pn⟩ ws st).newIncidents =
      [⟨"fetch_error", cgUrl ++ " -> " ++ e, now⟩] := by
    simp [tick, fetchInc]
  refine ⟨?_, ?_, h3, ?_, ?_, ?_, ?_, ?_, ?_⟩
  · rw [tick_ws_eq]
    rfl
  · rw [tick_rows_eq]
    simp [mkRow]
  · rw [tick_dbIncidents, h3]
  · by_cases hk : key = "" <;>
      simp only [tick, push_scores, push_narratives, fetch_json, hk, if_true, if_false,
        ite_true, ite_false] <;>
      split <;> rfl
  · rw [tick_rows_eq, tick_rows_eq] <;> rfl
  · rw [tick_narratives_eq, tick_narratives_eq] <;> rfl
  · rw [tick_ws_eq, tick_ws_eq] <;> rfl
  · simp [tick, fetchInc]

set_option maxRecDepth 8000 in
theorem c1_wiki_part (key : String) (now : ℝ) (env : Env) (ws : WorkerState) (st : AppState)
    (e : String) (pc : Option CGPayload) (ph pr : Option (List (String × String)))
    (pn : Option (List String))
    (hcg : env.cg = Except.ok pc) (hwiki : env.wiki = Except.error e)
    (hhn : env.hn = Except.ok ph) (hred : env.reddit = Except.ok pr)
    (hnews : env.news = Except.ok pn) :
    (∀ r ∈ (tick key now env ws st).rows, r.name ≠ "wikipedia_edits") ∧
    (tick key now env ws st).newIncidents =
      [⟨"fetch_error", wikiUrl ++ " -> " ++ e, now⟩] ∧
    (tick key now env ws st).app.dbIncidents =
      st.dbIncidents ++ [⟨"fetch_error", wikiUrl ++ " -> " ++ e, now⟩] ∧
    (tick key now env ws st).app.incidents =
      lastN 100 (st.incidents ++ [⟨"fetch_error", wikiUrl ++ " -> " ++ e, now⟩]) ∧
    (tick key now env ws st).rows =
      (tick key now { env with wiki := Except.ok none } ws st).rows ∧
    (tick key now env ws st).narratives =
      (tick key now { env with wiki := Except.ok none } ws st).narratives ∧
    (tick key now env ws st).ws = (tick key now { env with wiki := Except.ok none } ws st).ws ∧
    (tick key now { env with wiki := Except.ok none } ws st).newIncidents = [] := by
  obtain ⟨cg, wiki, hnf, red, nws⟩ := env
  simp only at hcg hwiki hhn hred hnews
  subst hcg hwiki hhn hred hnews
  have h3 : (tick key now ⟨Except.ok pc, Except.error e, Except.ok ph, Except.ok pr,
      Except.ok pn⟩ ws st).newIncidents =
      [⟨"fetch_error", wikiUrl ++ " -> " ++ e, now⟩] := by
    simp [tick, fetchInc]
  refine ⟨?_, h3, ?_, ?_, ?_, ?_, ?_, ?_⟩
  · rw [tick_rows_eq]
    intro r h
    simp only [exRes, wikiVals, List.isEmpty_nil, ite_true, List.append_nil,
      List.mem_cons, List.not_mem_nil, or_false] at h
    rcases h with rfl | rfl <;> simp [mkRow]
  · rw [tick_dbIncidents, h3]
  · by_cases hk : key = "" <;>
      simp only [tick, push_scores, push_narratives, fetch_json, hk, if_true, if_false,
        ite_true, ite_false] <;>
      split <;> rfl
  · rw [tick_rows_eq, tick_rows_eq] <;> rfl
  · rw [tick_narratives_eq, tick_narratives_eq] <;> rfl
  · rw [tick_ws_eq, tick_ws_eq] <;> rfl
  · simp [tick, fetchInc]

set_option maxRecDepth 8000 in
theorem c1_reddit_part (key : String) (now : ℝ) (env : Env) (ws : WorkerState) (st : AppState)
    (e : String) (pc : Option CGPayload) (pw : Option (List ℝ))
    (ph : Option (List (String × String))) (pn : Option (List String))
    (hcg : env.cg = Except.ok pc) (hwiki : env.wiki = Except.ok pw)
    (hhn : env.hn = Except.ok ph) (hred : env.reddit = Except.error e)
    (hnews : env.news = Except.ok pn) :
    (∀ nr ∈ (tick key now env ws st).narratives, nr.source ≠ "Reddit/technology") ∧
    (tick key now env ws st).ws.reddit_seen = ws.reddit_seen ∧
    (tick key now env ws st).newIncidents =
      [⟨"fetch_error", redditUrl ++ " -> " ++ e, now⟩] ∧
    (tick key now env ws st).app.dbIncidents =
      st.dbIncidents ++ [⟨"fetch_error", redditUrl ++ " -> " ++ e, now⟩] ∧
    (tick key now env ws st).app.incidents =
      lastN 100 (st.incidents ++ [⟨"fetch_error", redditUrl ++ " -> " ++ e, now⟩]) ∧
    (tick key now env ws st).rows =
      (tick key now { env with reddit := Except.ok none } ws st).rows ∧
    (tick key now env ws st).narratives =
      (tick key now { env with reddit := Except.ok none } ws st).narratives ∧
    (tick key now env ws st).ws =
      (tick key now { env with reddit := Except.ok none } ws st).ws ∧
    (tick key now { env with reddit := Except.ok none } ws st).newIncidents = [] := by
  obtain ⟨cg, wiki, hnf, red, nws⟩ := env
  simp only at hcg hwiki hhn hred hnews
  subst hcg hwiki hhn hred hnews
  have h3 : (tick key now ⟨Except.ok pc, Except.ok pw, Except.ok ph, Except.error e,
      Except.ok pn⟩ ws st).newIncidents =
      [⟨"fetch_error", redditUrl ++ " -> " ++ e, now⟩] := by
    simp [tick, fetchInc]
  refine ⟨?_, ?_, h3, ?_, ?_, ?_, ?_, ?_, ?_⟩
  · rw [tick_narratives_eq]
    intro nr h
    simp only [exRes, redditStep, List.append_nil] at h
    rcases List.mem_append.mp h with h | h
    · rw [hnStep_source now ws.hn_seen _ nr h]
      decide
    · by_cases hk : key = ""
      · rw [if_pos hk] at h
        exact absurd h (List.not_mem_nil nr)
      · rw [if_neg hk] at h
        rw [newsStep_source now _ nr h]
        decide
  · rw [(tick_reddit_fields key now _ ws st).2]
    rfl
  · rw [tick_dbIncidents, h3]
  · by_cases hk : key = "" <;>
      simp only [tick, push_scores, push_narratives, fetch_json, hk, if_true, if_false,
        ite_true, ite_false] <;>
      split <;> rfl
  · rw [tick_rows_eq, tick_rows_eq] <;> rfl
  · rw [tick_narratives_eq, tick_narratives_eq] <;> rfl
  · rw [tick_ws_eq, tick_ws_eq] <;> rfl
  · simp [tick, fetchInc]

set_option maxRecDepth 8000 in
theorem c1_news_part (key : String) (now : ℝ) (env : Env) (ws : WorkerState) (st : AppState)
    (e : String) (pc : Option CGPayload) (pw : Option (List ℝ))
    (ph pr : Option (List (String × String)))
    (hkey : key ≠ "")
    (hcg : env.cg = Except.ok pc) (hwiki : env.wiki = Except.ok pw)
    (hhn : env.hn = Except.ok ph) (hred : env.reddit = Except.ok pr)
    (hnews : env.news = Except.error e) :
    (∀ nr ∈ (tick key now env ws st).narratives, nr.source ≠ "NewsAPI") ∧
    (tick key now env ws st).newIncidents =
      [⟨"fetch_error", newsUrl key ++ " -> " ++ e, now⟩] ∧
    (tick key now env ws st).app.dbIncidents =
      st.dbIncidents ++ [⟨"fetch_error", newsUrl key ++ " -> " ++ e, now⟩] ∧
    (tick key now env ws st).app.incidents =
      lastN 100 (st.incidents ++ [⟨"fetch_error", newsUrl key ++ " -> " ++ e, now⟩]) ∧
    (tick key now env ws st).rows =
      (tick key now { env with news := Except.ok none } ws st).rows ∧
    (tick key now env ws st).narratives =
      (tick key now { env with news := Except.ok none } ws st).narratives ∧
    (tick key now env ws st).ws = (tick key now { env with news := Except.ok none } ws st).ws ∧
    (tick key now { env with news := Except.ok none } ws st).newIncidents = [] := by
  obtain ⟨cg, wiki, hnf, red, nws⟩ := env
  simp only at hcg hwiki hhn hred hnews
  subst hcg hwiki hhn hred hnews
  have h3 : (tick key now ⟨Except.ok pc, Except.ok pw, Except.ok ph, Except.ok pr,
      Except.error e⟩ ws st).newIncidents =
      [⟨"fetch_error", newsUrl key ++ " -> " ++ e, now⟩] := by
    simp [tick, fetchInc, hkey]
  refine ⟨?_, h3, ?_, ?_, ?_, ?_, ?_, ?_⟩
  · rw [tick_narratives_eq]
    intro nr h
    rw [if_neg hkey] at h
    simp only [exRes, newsStep, List.append_nil] at h
    rcases List.mem_append.mp h with h | h
    · rw [hnStep_source now ws.hn_seen _ nr h]
      decide
    · rw [redditStep_source now ws.reddit_seen _ nr h]
      decide
  · rw [tick_dbIncidents, h3]
  · simp only [tick, push_scores, push_narratives, fetch_json, if_neg hkey] <;>
      split <;> rfl
  · rw [tick_rows_eq, tick_rows_eq] <;> rfl
  · rw [tick_narratives_eq, tick_narratives_eq] <;> rfl
  · rw [tick_ws_eq, tick_ws_eq] <;> rfl
  · simp [tick, fetchInc]

/-- A tick whose CoinGecko fetch raises while every other source returns a
shapeless payload. -/
def envFailCG : Env :=
  ⟨Except.error "boom", Except.ok none, Except.ok none, Except.ok none, Except.ok none⟩

/-- A tick whose HackerNews fetch raises while every other source returns a
shapeless payload. -/
def envFailHN : Env :=
  ⟨Except.ok none, Except.ok none, Except.error "down", Except.ok none, Except.ok none⟩

/-- C1 counterexample: when the CoinGecko fetch fails, the tick still
produces, persists and publishes ScoreSamples named bitcoin and ethereum,
computed from the retained price windows (here empty, giving zero rows), so
the tick does not publish zero ScoreSamples attributable to the failed
source. -/
theorem c1_source_failure_cex :
    envFailCG.cg = Except.error "boom" ∧
    (tick "" 0 envFailCG ws0 st0).rows.map (fun r => r.name) = ["bitcoin", "ethereum"] ∧
    (tick "" 0 envFailCG ws0 st0).app.dbScores.map (fun r => r.name) =
      ["bitcoin", "ethereum"] :=
  ⟨rfl, rfl, rfl⟩

/-- C1 amended: when exactly one source's fetch fails on a tick, exactly one
fetch_error Incident naming that source's URL and the failure cause is
recorded (appended to the durable table; the in-memory tail is the append
truncated to 100), every other source's data is unaffected (the tick's
rows, narratives and worker state equal those of the same tick with the
failed fetch replaced by an empty success, which records no incident), and
the failed source contributes nothing new: a failed item feed (HackerNews,
Reddit, NewsAPI) yields zero NarrativeItems from that source and leaves its
dedup set unchanged, a failed Wikipedia fetch yields no wikipedia_edits
row, and a failed CoinGecko fetch appends no price sample — but ScoreSamples
named bitcoin and ethereum are still published, computed from the retained
window (this is where the original claim fails). -/
theorem c1_source_failure_amended :
    (∀ (key : String) (now : ℝ) (env : Env) (ws : WorkerState) (st : AppState) (e : String)
        (pw : Option (List ℝ)) (ph pr : Option (List (String × String)))
        (pn : Option (List String)),
      env.cg = Except.error e → env.wiki = Except.ok pw → env.hn = Except.ok ph →
      env.reddit = Except.ok pr → env.news = Except.ok pn →
      (tick key now env ws st).ws.prices = ws.prices ∧
      ((tick key now env ws st).rows.map (fun r => r.name)).take 2 = ["bitcoin", "ethereum"] ∧
      (tick key now env ws st).newIncidents =
        [⟨"fetch_error", cgUrl ++ " -> " ++ e, now⟩] ∧
      (tick key now env ws st).app.dbIncidents =
        st.dbIncidents ++ [⟨"fetch_error", cgUrl ++ " -> " ++ e, now⟩] ∧
      (tick key now env ws st).app.incidents =
        lastN 100 (st.incidents ++ [⟨"fetch_error", cgUrl ++ " -> " ++ e, now⟩]) ∧
      (tick key now env ws st).rows =
        (tick key now { env with cg := Except.ok none } ws st).rows ∧
      (tick key now env ws st).narratives =
        (tick key now { env with cg := Except.ok none } ws st).narratives ∧
      (tick key now env ws st).ws = (tick key now { env with cg := Except.ok none } ws st).ws ∧
      (tick key now { env with cg := Except.ok none } ws st).newIncidents = []) ∧
    (∀ (key : String) (now : ℝ) (env : Env) (ws : WorkerState) (st : AppState) (e : String)
        (pc : Option CGPayload) (ph pr : Option (List (String × String)))
        (pn : Option (List String)),
      env.cg = Except.ok pc → env.wiki = Except.error e → env.hn = Except.ok ph →
      env.reddit = Except.ok pr → env.news = Except.ok pn →
      (∀ r ∈ (tick key now env ws st).rows, r.name ≠ "wikipedia_edits") ∧
      (tick key now env ws st).newIncidents =
        [⟨"fetch_error", wikiUrl ++ " -> " ++ e, now⟩] ∧
      (tick key now env ws st).app.dbIncidents =
        st.dbIncidents ++ [⟨"fetch_error", wikiUrl ++ " -> " ++ e, now⟩] ∧
      (tick key now env ws st).app.incidents =
        lastN 100 (st.incidents ++ [⟨"fetch_error", wikiUrl ++ " -> " ++ e, now⟩]) ∧
      (tick key now env ws st).rows =
        (tick key now { env with wiki := Except.ok none } ws st).rows ∧
      (tick key now env ws st).narratives =
        (tick key now { env with wiki := Except.ok none } ws st).narratives ∧
      (tick key now env ws st).ws =
        (tick key now { env with wiki := Except.ok none } ws st).ws ∧
      (tick key now { env with wiki := Except.ok none } ws st).newIncidents = []) ∧
    (∀ (key : String) (now : ℝ) (env : Env) (ws : WorkerState) (st : AppState) (e : String)
        (pc : Option CGPayload) (pw : Option (List ℝ))
        (pr : Option (List (String × String))) (pn : Option (List String)),
      env.cg = Except.ok pc → env.wiki = Except.ok pw → env.hn = Except.error e →
      env.reddit = Except.ok pr → env.news = Except.ok pn →
      (∀ nr ∈ (tick key now env ws st).narratives, nr.source ≠ "HackerNews") ∧
      (tick key now env ws st).ws.hn_seen = ws.hn_seen ∧
      (tick key now env ws st).newIncidents =
        [⟨"fetch_error", hnUrl ++ " -> " ++ e, now⟩] ∧
      (tick key now env ws st).app.dbIncidents =
        st.dbIncidents ++ [⟨"fetch_error", hnUrl ++ " -> " ++ e, now⟩] ∧
      (tick key now env ws st).app.incidents =
        lastN 100 (st.incidents ++ [⟨"fetch_error", hnUrl ++ " -> " ++ e, now⟩]) ∧
      (tick key now env ws st).rows =
        (tick key now { env with hn := Except.ok none } ws st).rows ∧
      (tick key now env ws st).narratives =
        (tick key now { env with hn := Except.ok none } ws st).narratives ∧
      (tick key now env ws st).ws = (tick key now { env with hn := Except.ok none } ws st).ws ∧
      (tick key now { env with hn := Except.ok none } ws st).newIncidents = []) ∧
    (∀ (key : String) (now : ℝ) (env : Env) (ws : WorkerState) (st : AppState) (e : String)
        (pc : Option CGPayload) (pw : Option (List ℝ))
        (ph : Option (List (String × String))) (pn : Option (List String)),
      env.cg = Except.ok pc → env.wiki = Except.ok pw → env.hn = Except.ok ph →
      env.reddit = Except.error e → env.news = Except.ok pn →
      (∀ nr ∈ (tick key now env ws st).narratives, nr.source ≠ "Reddit/technology") ∧
      (tick key now env ws st).ws.reddit_seen = ws.reddit_seen ∧
      (tick key now env ws st).newIncidents =
        [⟨"fetch_error", redditUrl ++ " -> " ++ e, now⟩] ∧
      (tick key now env ws st).app.dbIncidents =
        st.dbIncidents ++ [⟨"fetch_error", redditUrl ++ " -> " ++ e, now⟩] ∧
      (tick key now env ws st).app.incidents =
        lastN 100 (st.incidents ++ [⟨"fetch_error", redditUrl ++ " -> " ++ e, now⟩]) ∧
      (tick key now env ws st).rows =
        (tick key now { env with reddit := Except.ok none } ws st).rows ∧
      (tick key now env ws st).narratives =
        (tick key now { env with reddit := Except.ok none } ws st).narratives ∧
      (tick key now env ws st).ws =
        (tick key now { env with reddit := Except.ok none } ws st).ws ∧
      (tick key now { env with reddit := Except.ok none } ws st).newIncidents = []) ∧
    (∀ (key : String) (now : ℝ) (env : Env) (ws : WorkerState) (st : AppState) (e : String)
        (pc : Option CGPayload) (pw : Option (List ℝ))
        (ph pr : Option (List (String × String))),
      key ≠ "" →
      env.cg = Except.ok pc → env.wiki = Except.ok pw → env.hn = Except.ok ph →
      env.reddit = Except.ok pr → env.news = Except.error e →
      (∀ nr ∈ (tick key now env ws st).narratives, nr.source ≠ "NewsAPI") ∧
      (tick key now env ws st).newIncidents =
        [⟨"fetch_error", newsUrl key ++ " -> " ++ e, now⟩] ∧
      (tick key now env ws st).app.dbIncidents =
        st.dbIncidents ++ [⟨"fetch_error", newsUrl key ++ " -> " ++ e, now⟩] ∧
      (tick key now env ws st).app.incidents =
        lastN 100 (st.incidents ++ [⟨"fetch_error", newsUrl key ++ " -> " ++ e, now⟩]) ∧
      (tick key now env ws st).rows =
        (tick key now { env with news := Except.ok none } ws st).rows ∧
      (tick key now env ws st).narratives =
        (tick key now { env with news := Except.ok none } ws st).narratives ∧
      (tick key now env ws st).ws =
        (tick key now { env with news := Except.ok none } ws st).ws ∧
      (tick key now { env with news := Except.ok none } ws st).newIncidents = []) :=
  ⟨fun key now env ws st e pw ph pr pn h1 h2 h3 h4 h5 =>
      c1_cg_part key now env ws st e pw ph pr pn h1 h2 h3 h4 h5,
   fun key now env ws st e pc ph pr pn h1 h2 h3 h4 h5 =>
      c1_wiki_part key now env ws st e pc ph pr pn h1 h2 h3 h4 h5,
   fun key now env ws st e pc pw pr pn h1 h2 h3 h4 h5 =>
      c1_hn_part key now env ws st e pc pw pr pn h1 h2 h3 h4 h5,
   fun key now env ws st e pc pw ph pn h1 h2 h3 h4 h5 =>
      c1_reddit_part key now env ws st e pc pw ph pn h1 h2 h3 h4 h5,
   fun key now env ws st e pc pw ph pr hk h1 h2 h3 h4 h5 =>
      c1_news_part key now env ws st e pc pw ph pr hk h1 h2 h3 h4 h5⟩

theorem c1_source_failure_amended_witness :
    (tick "" 0 envFailHN ws0 st0).newIncidents =
      [⟨"fetch_error", hnUrl ++ " -> " ++ "down", 0⟩] ∧
    (∀ nr ∈ (tick "" 0 envFailHN ws0 st0).narratives, nr.source ≠ "HackerNews") ∧
    ((tick "" 0 envFailCG ws0 st0).rows.map (fun r => r.name)).take 2 =
      ["bitcoin", "ethereum"] :=
  ⟨(c1_source_failure_amended.2.2.1 "" 0 envFailHN ws0 st0 "down" none none none none
      rfl rfl rfl rfl rfl).2.2.1,
   (c1_source_failure_amended.2.2.1 "" 0 envFailHN ws0 st0 "down" none none none none
      rfl rfl rfl rfl rfl).1,
   (c1_source_failure_amended.1 "" 0 envFailCG ws0 st0 "boom" none none none none
      rfl rfl rfl rfl rfl).2.1⟩

end SubMind
